import Mathlib

/-!
Shallow embedding of the gRPC status/error subsystem
(`internal/status/status.go` of the grpc-go fork).

Modelling choices:
* `*spb.Status` (a nullable pointer to the wire record) is `Option SpbStatus`;
  `*Status` is `Option Status`; `*Error` fields likewise use `Option`.
* `codes.Code` is a `uint32` and the wire field `code` is `int32(c)`; the
  round trip `uint32 → int32 → uint32` is the identity on every value, and
  `int32(c) == 0` iff `c == 0`, so the code is modelled as `Nat` with `OK = 0`.
* The Serialization Capability (`ptypes.MarshalAny` / `ptypes.UnmarshalAny`,
  and protobuf text formatting `Any.String()`) is external library code; it is
  passed in as an explicit fallible function, as the spec treats it
  ("a serialization capability that packs/unpacks opaque byte envelopes").
* The captured stack trace string `fmt.Sprintf("%+v", callers().StackTrace())`
  is call-site dependent runtime state; it enters `New` as a parameter.
* Go `nil`-pointer dereference (a panic) is modelled as an `Option` result
  `none` where the source would crash.
-/

namespace status

/-- Wire-format `Any` envelope: a type identifier plus opaque payload bytes. -/
structure AnyMsg where
  typeUrl : String
  value : List Nat
deriving DecidableEq, Repr

/-- The wire record `spb.Status`: code, message, ordered detail envelopes. -/
structure SpbStatus where
  code : Nat
  message : String
  details : List AnyMsg
deriving DecidableEq, Repr

/-- `Status` wraps a (possibly nil) pointer to the wire record.  The `stack`
field of the Go struct is never assigned by any constructor in the source and
carries no observable behaviour, so it is omitted. -/
structure Status where
  s : Option SpbStatus
deriving DecidableEq, Repr

/-- `Error` wraps a pointer to a `Status`; it adapts the status to Go's
`error` interface. -/
structure Error where
  s : Option Status
deriving DecidableEq, Repr

/-- A detail message passed to `WithDetails` (`proto.Message` in Go).
`New` constructs a `DebugInfo{StackEntries: [...]}` detail; any other proto
message is opaque to this subsystem. -/
inductive Detail where
  | debugInfo (stackEntries : List String)
  | other (typeUrl : String) (payload : List Nat)
deriving DecidableEq, Repr

/-- `proto.Clone` on a possibly-nil `*spb.Status`: a deep structural copy. -/
def protoClone : Option SpbStatus → Option SpbStatus
  | none => none
  | some p =>
    some { code := p.code, message := p.message,
           details := p.details.map (fun a => { typeUrl := a.typeUrl, value := a.value }) }

/-- `(*Status).Code`: nil-receiver-safe; absent status or absent wire record
reports `codes.OK` (= 0). -/
def Status.Code : Option Status → Nat
  | none => 0
  | some st =>
    match st.s with
    | none => 0
    | some p => p.code

/-- `(*Status).Message`: nil-receiver-safe; absent status reports `""`. -/
def Status.Message : Option Status → String
  | none => ""
  | some st =>
    match st.s with
    | none => ""
    | some p => p.message

/-- `(*Status).Proto`: clone of the underlying wire record (nil for nil). -/
def Status.Proto : Option Status → Option SpbStatus
  | none => none
  | some st => protoClone st.s

/-- `FromProto`: builds a Status around a clone of the given wire record. -/
def FromProto (p : Option SpbStatus) : Status :=
  { s := protoClone p }

/-- `(*Status).Err`: nil when the code is OK, otherwise an `Error` wrapping
the receiver. -/
def Status.Err (s : Option Status) : Option Error :=
  if Status.Code s = 0 then none else some { s := s }

/-- The `for _, detail := range details` marshal loop of `WithDetails`:
appends each successfully marshalled envelope to `acc` (which starts as the
cloned record's existing details) and stops at the first marshal error. -/
def marshalDetails (m : Detail → Except String AnyMsg) (acc : List AnyMsg) :
    List Detail → Except String (List AnyMsg)
  | [] => Except.ok acc
  | d :: ds =>
    match m d with
    | Except.error e => Except.error e
    | Except.ok a => marshalDetails m (acc ++ [a]) ds

/-- `(*Status).WithDetails`: rejects an OK-coded status; otherwise marshals
every detail (all-or-nothing, first error wins) and returns a new Status with
the envelopes appended to a clone of the receiver's record. -/
def Status.WithDetails (m : Detail → Except String AnyMsg)
    (s : Option Status) (ds : List Detail) : Except String Status :=
  if Status.Code s = 0 then Except.error "no error details for status with code OK"
  else
    match Status.Proto s with
    | none => Except.error "nil status proto" -- unreachable: a non-OK code forces a present record
    | some p =>
      match marshalDetails m p.details ds with
      | Except.error e => Except.error e
      | Except.ok newDetails =>
        Except.ok { s := some { code := p.code, message := p.message, details := newDetails } }

/-- `New(c, msg)`: builds the status, then attaches the captured-stack
`DebugInfo` detail via `WithDetails`, discarding the error
(`newStatusWithDetail, _ := ...`) and returning `WithDetails`' status result
as is — which is nil whenever `WithDetails` failed. -/
def New (m : Detail → Except String AnyMsg) (stackStr : String)
    (c : Nat) (msg : String) : Option Status :=
  let newStatus : Status := { s := some { code := c, message := msg, details := [] } }
  match Status.WithDetails m (some newStatus) [Detail.debugInfo [stackStr]] with
  | Except.ok st => some st
  | Except.error _ => none

/-- `Err(c, msg)` = `New(c, msg).Err()`. -/
def Err (m : Detail → Except String AnyMsg) (stackStr : String)
    (c : Nat) (msg : String) : Option Error :=
  Status.Err (New m stackStr c msg)

/-- `(*Status).Details`: decodes each stored envelope with the capability
`u`; a failing slot holds the decode error (`Sum.inl`), a succeeding slot the
decoded value (`Sum.inr`); siblings are unaffected. -/
def Status.Details {α : Type} (u : AnyMsg → Except String α)
    (s : Option Status) : List (Sum String α) :=
  match s with
  | none => []
  | some st =>
    match st.s with
    | none => []
    | some p =>
      p.details.map (fun a =>
        match u a with
        | Except.error e => Sum.inl e
        | Except.ok v => Sum.inr v)

/-- The text post-processing of `(*Error).Stacks`: the envelope's protobuf
text form with literal `\n` / `\t` escape sequences replaced by real
newline / tab characters. -/
def stackFmt (fmtAny : AnyMsg → String) (a : AnyMsg) : String :=
  ((fmtAny a).replace "\\n" "\n").replace "\\t" "\t"

/-- `(*Error).Stacks`: `""` if the wrapped status pointer is nil or the
detail list is empty; otherwise the formatted first envelope.  When the
status is present but its inner wire record is nil, the source dereferences
the nil `e.s.s` and panics, modelled as `none`. -/
def Error.Stacks (fmtAny : AnyMsg → String) (e : Error) : Option String :=
  match e.s with
  | none => some ""
  | some st =>
    match st.s with
    | none => none -- Go reads `e.s.s.Details` through the nil record and panics
    | some p =>
      match p.details with
      | [] => some ""
      | a :: _ => some (stackFmt fmtAny a)

/-- The `target error` argument of `(*Error).Is`: either another `*Error`
from this package (the type assertion succeeds) or any other error value. -/
inductive TargetError where
  | status (e : Error)
  | otherKind (tag : String)
deriving Repr

/-- `proto.Equal` on two possibly-nil `*spb.Status` values: both nil is
equal, nil against non-nil is unequal, otherwise structural equality of the
records (code, message, and the full ordered detail list). -/
def protoEqual : Option SpbStatus → Option SpbStatus → Bool
  | none, none => true
  | some a, some b => decide (a = b)
  | _, _ => false

/-- `(*Error).Is`: false when the target is not an `*Error`; otherwise
`proto.Equal(e.s.s, tse.s.s)`.  Both sides dereference their `*Status`
pointer, so a nil pointer panics, modelled as `none`. -/
def Error.Is (e : Error) (target : TargetError) : Option Bool :=
  match target with
  | TargetError.otherKind _ => some false
  | TargetError.status te =>
    match e.s, te.s with
    | some es, some tes => some (protoEqual es.s tes.s)
    | _, _ => none -- nil `*Status` dereference panics

/-! ## Supporting lemmas -/

/-- `protoClone` is a deep copy: structurally it returns its argument. -/
theorem protoClone_eq_self (p : Option SpbStatus) : protoClone p = p := by
  cases p with
  | none => rfl
  | some q =>
    simp only [protoClone]
    exact congrArg some (by cases q with
      | mk c msg ds => simp [SpbStatus.mk.injEq])

/-- The marshal loop succeeds on a detail list exactly when every detail
marshals, and then appends the envelopes in order. -/
theorem marshalDetails_ok (m : Detail → Except String AnyMsg)
    (ds : List Detail) (as : List AnyMsg)
    (h : List.Forall₂ (fun d a => m d = Except.ok a) ds as) :
    ∀ acc : List AnyMsg, marshalDetails m acc ds = Except.ok (acc ++ as) := by
  induction h with
  | nil => intro acc; simp [marshalDetails]
  | cons hda _ ih =>
    intro acc
    simp only [marshalDetails, hda, ih]
    simp

/-- The marshal loop fails with the first marshal error: if every detail
before `bad` marshals and `bad` does not, the loop reports `bad`'s error. -/
theorem marshalDetails_err (m : Detail → Except String AnyMsg)
    (pre : List Detail) (bad : Detail) (rest : List Detail) (e : String)
    (hpre : ∀ d ∈ pre, ∃ a, m d = Except.ok a)
    (hbad : m bad = Except.error e) :
    ∀ acc : List AnyMsg, marshalDetails m acc (pre ++ bad :: rest) = Except.error e := by
  induction pre with
  | nil => intro acc; simp [marshalDetails, hbad]
  | cons d pre ih =>
    intro acc
    obtain ⟨a, ha⟩ := hpre d (List.mem_cons_self d pre)
    simp only [List.cons_append, marshalDetails, ha]
    exact ih (fun x hx => hpre x (List.mem_cons_of_mem d hx)) (acc ++ [a])

/-- `New` on code OK returns nil: `WithDetails` rejects the OK code and the
discarded-error result is returned as is. -/
theorem new_ok_none (m : Detail → Except String AnyMsg) (stackStr msg : String) :
    New m stackStr 0 msg = none := by
  simp [New, Status.WithDetails, Status.Code]

/-- `New` on a non-OK code whose debug detail marshals successfully returns
the status with the debug envelope as its sole detail. -/
theorem new_nonzero (m : Detail → Except String AnyMsg) (stackStr : String)
    (c : Nat) (msg : String) (a : AnyMsg) (hc : c ≠ 0)
    (hm : m (Detail.debugInfo [stackStr]) = Except.ok a) :
    New m stackStr c msg =
      some { s := some { code := c, message := msg, details := [a] } } := by
  simp [New, Status.WithDetails, Status.Code, Status.Proto, protoClone,
    marshalDetails, hm, hc]

/-- A marshal-capability used by concrete witnesses: tags the envelope with
the first stack entry, so distinct stack captures yield distinct envelopes. -/
def stackTagMarshal : Detail → Except String AnyMsg
  | Detail.debugInfo (x :: _) => Except.ok { typeUrl := x, value := [] }
  | _ => Except.ok { typeUrl := "", value := [] }

/-! ## Claims -/

/-- Claim C8: `Code()` and `Message()` are nil-receiver-safe: on an absent
(nil) `*Status`, and on a `Status` whose underlying wire record is absent,
`Code()` returns OK (= 0) and `Message()` returns `""`. -/
theorem code_message_nil_safe :
    Status.Code none = 0 ∧ Status.Message none = "" ∧
    Status.Code (some { s := none }) = 0 ∧ Status.Message (some { s := none }) = "" :=
  ⟨rfl, rfl, rfl, rfl⟩

/-- Claim C3: for every Status value `st`, the round trip
`FromProto(st.Proto())` yields a Status structurally equal to `st`: same
code, same message, every detail envelope preserved exactly and in order
(both directions deep-copy, so in this pure model the copy equals the
original). -/
theorem fromProto_proto_roundtrip (st : Status) :
    FromProto (Status.Proto (some st)) = st := by
  cases st with
  | mk s =>
    simp [FromProto, Status.Proto, protoClone_eq_self]

/-- Claim C5: `WithDetails` on any status whose `Code()` is OK — including
the nil status and one with an absent wire record — fails with the
invariant-violation error, whatever details are supplied, and produces no
new status. -/
theorem withDetails_ok_code_fails (m : Detail → Except String AnyMsg)
    (s : Option Status) (ds : List Detail) (h : Status.Code s = 0) :
    Status.WithDetails m s ds = Except.error "no error details for status with code OK" := by
  simp [Status.WithDetails, h]

/-- Witness for C5 at a concrete input: the nil status with an arbitrary
detail list. -/
theorem withDetails_ok_code_fails_witness :
    Status.WithDetails (fun _ => Except.ok { typeUrl := "u", value := [] })
      none [Detail.other "t" [1]] =
      Except.error "no error details for status with code OK" :=
  withDetails_ok_code_fails _ none [Detail.other "t" [1]] rfl

/-- Claim C10 (implicit): for every message `msg`, `New(OK, msg)` returns
the absent (nil) status — `WithDetails` rejects the OK code and `New`
returns the rejected nil result — so `Code()` on the result is OK and
`Message()` is `""`: the message is lost. -/
theorem new_ok_returns_nil (m : Detail → Except String AnyMsg)
    (stackStr msg : String) :
    New m stackStr 0 msg = none ∧
    Status.Code (New m stackStr 0 msg) = 0 ∧
    Status.Message (New m stackStr 0 msg) = "" := by
  have h : New m stackStr 0 msg = none := by
    simp [New, Status.WithDetails, Status.Code]
  exact ⟨h, by rw [h]; rfl, by rw [h]; rfl⟩

/-- Claim C1 (evaluation at the failing input): with a marshal capability
that fails on the debug detail, `New(3, "boom")` returns the absent (nil)
status — not a status carrying code 3 and message "boom" without the debug
detail — so the accessors report code OK and an empty message.  The
construction of the primary status DOES fail because the diagnostic
attachment failed, contradicting the claim. -/
theorem new_marshal_failure_returns_nil :
    New (fun _ => Except.error "marshal failed") "stack" 3 "boom" = none ∧
    Status.Code (New (fun _ => Except.error "marshal failed") "stack" 3 "boom") = 0 ∧
    Status.Message (New (fun _ => Except.error "marshal failed") "stack" 3 "boom") = "" :=
  ⟨rfl, rfl, rfl⟩

/-- Claim C2: for every code `c` in the enumerated domain and every message,
`Err(c, msg)` is nil exactly when `c = OK` (given that the debug-detail
marshal succeeds, as it always does for the real capability), and
`Err(c, msg)` is exactly `New(c, msg)` converted to the error form. -/
theorem err_nil_iff_code_ok (m : Detail → Except String AnyMsg)
    (stackStr : String) (c : Nat) (msg : String) (a : AnyMsg)
    (hdom : c ≤ 16) (hm : m (Detail.debugInfo [stackStr]) = Except.ok a) :
    (Err m stackStr c msg = none ↔ c = 0) ∧
    Err m stackStr c msg = Status.Err (New m stackStr c msg) := by
  refine ⟨?_, rfl⟩
  by_cases h0 : c = 0
  · subst h0
    simp [Err, new_ok_none, Status.Err, Status.Code]
  · simp [Err, new_nonzero m stackStr c msg a h0 hm, Status.Err, Status.Code, h0]

/-- Witness for C2 at `c = 3` (the code `InvalidArgument`) with an
always-succeeding marshal capability. -/
theorem err_nil_iff_code_ok_witness :
    ((Err (fun _ => Except.ok { typeUrl := "u", value := [] }) "s" 3 "m" = none ↔
        (3 : Nat) = 0) ∧
     Err (fun _ => Except.ok { typeUrl := "u", value := [] }) "s" 3 "m" =
       Status.Err (New (fun _ => Except.ok { typeUrl := "u", value := [] }) "s" 3 "m")) :=
  err_nil_iff_code_ok _ "s" 3 "m" { typeUrl := "u", value := [] } (by decide) rfl

/-- Claim C6: on a status with a non-OK code, `WithDetails` is
all-or-nothing: if some detail fails to marshal (every earlier one
succeeding), the whole call fails with that first error and no status is
produced; if every detail marshals, a new status is returned with the
envelopes appended in order after the existing ones.  (The receiver is a
pure value here, so its immutability is inherent in the model.) -/
theorem withDetails_all_or_nothing (m : Detail → Except String AnyMsg)
    (st : Status) (p : SpbStatus) (ds : List Detail)
    (hs : st.s = some p) (hc : p.code ≠ 0) :
    (∀ pre bad rest e, ds = pre ++ bad :: rest →
       (∀ d ∈ pre, ∃ a, m d = Except.ok a) → m bad = Except.error e →
       Status.WithDetails m (some st) ds = Except.error e) ∧
    (∀ as, List.Forall₂ (fun d a => m d = Except.ok a) ds as →
       Status.WithDetails m (some st) ds =
         Except.ok { s := some { code := p.code, message := p.message,
                                 details := p.details ++ as } }) := by
  have hcode : Status.Code (some st) = p.code := by simp [Status.Code, hs]
  have hproto : Status.Proto (some st) = some p := by
    simp [Status.Proto, hs, protoClone_eq_self]
  constructor
  · rintro pre bad rest e rfl hpre hbad
    simp [Status.WithDetails, hcode, hc, hproto,
      marshalDetails_err m pre bad rest e hpre hbad]
  · intro as has
    simp [Status.WithDetails, hcode, hc, hproto, marshalDetails_ok m ds as has]

/-- Witness for C6: appending one marshallable detail to a status with code
3 and one existing envelope keeps the old envelope first. -/
theorem withDetails_all_or_nothing_witness :
    Status.WithDetails (fun _ => Except.ok ⟨"u", [7]⟩)
      (some ⟨some ⟨3, "m", [⟨"e0", []⟩]⟩⟩) [Detail.other "t" [2]] =
      Except.ok ⟨some ⟨3, "m", [⟨"e0", []⟩] ++ [⟨"u", [7]⟩]⟩⟩ :=
  (withDetails_all_or_nothing (fun _ => Except.ok ⟨"u", [7]⟩)
      ⟨some ⟨3, "m", [⟨"e0", []⟩]⟩⟩ ⟨3, "m", [⟨"e0", []⟩]⟩
      [Detail.other "t" [2]] rfl (by decide)).2
    [⟨"u", [7]⟩] (List.Forall₂.cons rfl List.Forall₂.nil)

/-- Claim C7: on a status holding stored envelopes, `Details()` returns one
result per envelope, in storage order: each slot holds that envelope's
decoded value, or its decode error, independently of every other slot —
so one malformed envelope among N never hides the other N−1. -/
theorem details_per_slot {α : Type} (u : AnyMsg → Except String α)
    (st : Status) (p : SpbStatus) (hs : st.s = some p) :
    (Status.Details u (some st)).length = p.details.length ∧
    Status.Details u (some st) = p.details.map (fun a =>
      match u a with
      | Except.error e => Sum.inl e
      | Except.ok v => Sum.inr v) ∧
    (∀ i : Nat, (Status.Details u (some st)).get? i =
      (p.details.get? i).map (fun a =>
        match u a with
        | Except.error e => Sum.inl e
        | Except.ok v => Sum.inr v)) := by
  have hmap : Status.Details u (some st) = p.details.map (fun a =>
      match u a with
      | Except.error e => Sum.inl e
      | Except.ok v => Sum.inr v) := by
    simp [Status.Details, hs]
  refine ⟨by rw [hmap]; simp, hmap, ?_⟩
  intro i
  rw [hmap, List.get?_map]

/-- Witness for C7: three stored envelopes, the middle one malformed;
`Details()` returns three slots with the error in the middle. -/
theorem details_per_slot_witness :
    Status.Details
      (fun a => if a.typeUrl = "bad" then (Except.error "boom" : Except String Nat)
                else Except.ok a.value.length)
      (some ⟨some ⟨3, "m", [⟨"g1", [1]⟩, ⟨"bad", []⟩, ⟨"g2", [1, 2]⟩]⟩⟩) =
      [Sum.inr 1, Sum.inl "boom", Sum.inr 2] := by
  rw [(details_per_slot
      (fun a => if a.typeUrl = "bad" then (Except.error "boom" : Except String Nat)
                else Except.ok a.value.length)
      ⟨some ⟨3, "m", [⟨"g1", [1]⟩, ⟨"bad", []⟩, ⟨"g2", [1, 2]⟩]⟩⟩
      ⟨3, "m", [⟨"g1", [1]⟩, ⟨"bad", []⟩, ⟨"g2", [1, 2]⟩]⟩ rfl).2.1]
  rfl

/-- Claim C9: `Stacks()` never fails on an Error Wrapper as this package
constructs them (the wrapped status, when present, holds its wire record):
it returns `""` when the wrapped status is absent or its detail list is
empty, and the formatted first (debug-info) envelope otherwise. -/
theorem stacks_never_fails (fmtAny : AnyMsg → String) (e : Error)
    (hwf : ∀ st, e.s = some st → st.s ≠ none) :
    (Error.Stacks fmtAny e).isSome = true ∧
    (e.s = none → Error.Stacks fmtAny e = some "") ∧
    (∀ st p, e.s = some st → st.s = some p → p.details = [] →
       Error.Stacks fmtAny e = some "") ∧
    (∀ st p a rest, e.s = some st → st.s = some p → p.details = a :: rest →
       Error.Stacks fmtAny e = some (stackFmt fmtAny a)) := by
  obtain ⟨os⟩ := e
  cases os with
  | none =>
    refine ⟨rfl, fun _ => rfl, ?_, ?_⟩
    · intro st p h
      simp at h
    · intro st p a rest h
      simp at h
  | some st0 =>
    obtain ⟨op⟩ := st0
    cases op with
    | none => exact absurd rfl (hwf ⟨none⟩ rfl)
    | some p0 =>
      obtain ⟨c0, m0, ds0⟩ := p0
      cases ds0 with
      | nil =>
        refine ⟨rfl, ?_, fun st p _ _ _ => rfl, ?_⟩
        · intro h
          simp at h
        · intro st p a rest hes hp hd
          simp only [Option.some_inj] at hes
          subst hes
          simp only [Option.some_inj] at hp
          subst hp
          simp at hd
      | cons a0 rest0 =>
        refine ⟨rfl, ?_, ?_, ?_⟩
        · intro h
          simp at h
        · intro st p hes hp hd
          simp only [Option.some_inj] at hes
          subst hes
          simp only [Option.some_inj] at hp
          subst hp
          simp at hd
        · intro st p a rest hes hp hd
          simp only [Option.some_inj] at hes
          subst hes
          simp only [Option.some_inj] at hp
          subst hp
          simp only [List.cons.injEq] at hd
          obtain ⟨h1, h2⟩ := hd
          subst h1
          rfl

/-- Witness for C9: a wrapper around a code-3 status holding one debug
envelope; `Stacks()` returns the formatted envelope. -/
theorem stacks_never_fails_witness :
    Error.Stacks (fun a => a.typeUrl)
      ⟨some ⟨some ⟨3, "m", [⟨"u", []⟩]⟩⟩⟩ =
      some (stackFmt (fun a => a.typeUrl) ⟨"u", []⟩) :=
  (stacks_never_fails (fun a => a.typeUrl)
      ⟨some ⟨some ⟨3, "m", [⟨"u", []⟩]⟩⟩⟩
      (by intro st h; simp only [Option.some_inj] at h; subst h; simp)).2.2.2
    _ _ _ _ rfl rfl rfl

/-- Claim C4: `Is(a, b)` is true exactly when the two wrapped statuses'
wire records — code, message, and the full ordered detail list including
the debug-info envelope — are structurally equal; and two statuses built by
`New` with the same non-OK code and message at two call sites whose
captured stacks marshal to different envelopes are not deemed equivalent. -/
theorem error_is_structural_equality :
    (∀ (a b : Error) (sa sb : Status), a.s = some sa → b.s = some sb →
       (Error.Is a (TargetError.status b) = some true ↔ sa.s = sb.s)) ∧
    (∀ (m : Detail → Except String AnyMsg) (s1 s2 : String) (c : Nat)
       (msg : String) (a1 a2 : AnyMsg),
       m (Detail.debugInfo [s1]) = Except.ok a1 →
       m (Detail.debugInfo [s2]) = Except.ok a2 →
       a1 ≠ a2 → c ≠ 0 →
       ∃ e1 e2 : Error,
         Status.Err (New m s1 c msg) = some e1 ∧
         Status.Err (New m s2 c msg) = some e2 ∧
         Error.Is e1 (TargetError.status e2) = some false) := by
  constructor
  · rintro ⟨_⟩ ⟨_⟩ sa sb rfl rfl
    simp only [Error.Is, Option.some_inj]
    cases sa.s <;> cases sb.s <;> simp [protoEqual]
  · intro m s1 s2 c msg a1 a2 h1 h2 hne hc
    refine ⟨{ s := some { s := some { code := c, message := msg, details := [a1] } } },
            { s := some { s := some { code := c, message := msg, details := [a2] } } },
            ?_, ?_, ?_⟩
    · rw [new_nonzero m s1 c msg a1 hc h1]
      simp [Status.Err, Status.Code, hc]
    · rw [new_nonzero m s2 c msg a2 hc h2]
      simp [Status.Err, Status.Code, hc]
    · simp [Error.Is, protoEqual, SpbStatus.mk.injEq, hne]

/-- Witness for C4: a wrapper is `Is`-equal to itself, and two `New`-built
errors with identical code 3 and message but different captured stacks
("a" at one call site, "bb" at the other) compare unequal. -/
theorem error_is_structural_equality_witness :
    ((Error.Is { s := some { s := some { code := 3, message := "m", details := [] } } }
        (TargetError.status
          { s := some { s := some { code := 3, message := "m", details := [] } } }) =
          some true ↔
        (some { code := 3, message := "m", details := [] } : Option SpbStatus) =
          some { code := 3, message := "m", details := [] }) ∧
     (∃ e1 e2 : Error,
        Status.Err (New stackTagMarshal "a" 3 "m") = some e1 ∧
        Status.Err (New stackTagMarshal "bb" 3 "m") = some e2 ∧
        Error.Is e1 (TargetError.status e2) = some false)) :=
  ⟨error_is_structural_equality.1 _ _ _ _ rfl rfl,
   error_is_structural_equality.2 stackTagMarshal "a" "bb" 3 "m"
     { typeUrl := "a", value := [] } { typeUrl := "bb", value := [] }
     rfl rfl (by decide) (by decide)⟩

end status
